import Mathlib

set_option maxRecDepth 10000

/-!
A verification development for the storage core of the scottdb embedded
key-value engine: key ordering primitives, the partition write/read path,
the on-disk table parser/validator, and the bounded table cache manager.

Byte buffers are embedded as lists of naturals, each element below 256.
Machine integers are embedded as naturals, with explicit reduction modulo
two to the word width wherever the original code can wrap.
-/

namespace ScottDB

/-- Size in bytes of the fixed table header.
Modelled from the spec: the constant TABLE_HEAD_SIZE lives in the
tablefmt module, which is not among the provided sources; the spec fixes
the header layout as four 4-byte fields, 16 bytes total. -/
def TABLE_HEAD_SIZE : Nat := 16

/-- Size in bytes of one serialized catalog item.
Modelled from the spec: the constant TABLE_INDEX_SIZE lives in the
tablefmt module, which is not among the provided sources; the spec fixes
each catalog item at 16 bytes (four 4-byte fields). -/
def TABLE_INDEX_SIZE : Nat := 16

/-- Per-entry catalog overhead used by the memtable footprint estimate.
Modelled from the spec: the constant TABLE_CATALOG_ITEM_SIZE lives in the
tablefmt module, which is not among the provided sources; the spec
describes it as the fixed per-entry catalog overhead mirroring the
on-disk format, 16 bytes per item. -/
def TABLE_CATALOG_ITEM_SIZE : Nat := 16

/-- The fixed trailing magic byte pattern of a table file.
Modelled from the spec: the constant TABLE_MAGIC lives in the tablefmt
module, which is not among the provided sources; the spec fixes it as a
fixed-size, fixed byte pattern but does not give its content, so an
arbitrary concrete 4-byte pattern is used here. No claim depends on the
content or on the exact length. -/
def TABLE_MAGIC : List Nat := [115, 99, 100, 98]

/-- Length of the magic trailer. -/
def TABLE_MAGIC_SIZE : Nat := TABLE_MAGIC.length

/-- Minimum possible size of a table file: header plus magic trailer.
Modelled from the spec: the constant TABLE_MIN_SIZE lives in the tablefmt
module, which is not among the provided sources; total file length is
head (16) + catalog + data + magic, so the minimum is head + magic. -/
def TABLE_MIN_SIZE : Nat := TABLE_HEAD_SIZE + TABLE_MAGIC_SIZE

/-- Decode a little-endian fixed-width 4-byte unsigned integer.
Modelled from the spec: decode_fixed32 lives in the encode module, which
is not among the provided sources; the spec fixes all on-disk integers as
little-endian fixed-width 4-byte unsigned. -/
def decode_fixed32 (bytes : List Nat) : Nat :=
  match bytes with
  | b0 :: b1 :: b2 :: b3 :: _ => b0 + 256 * b1 + 65536 * b2 + 16777216 * b3
  | _ => 0

/-- Encode a natural below 2^32 as a little-endian 4-byte sequence
(the writing-side counterpart of decode_fixed32, used to state what a
validly constructed table buffer is). -/
def encode_fixed32 (n : Nat) : List Nat :=
  [n % 256, n / 256 % 256, n / 65536 % 256, n / 16777216 % 256]

/-- The reflected CRC-32 (IEEE) polynomial constant. -/
def CRC_IEEE_POLY : Nat := 0xEDB88320

/-- One bit round of the CRC-32 table construction. -/
def crcRound (t : Nat) : Nat :=
  if t % 2 = 1 then (t / 2) ^^^ CRC_IEEE_POLY else t / 2

/-- One entry of the CRC-32 (IEEE) lookup table: eight bit rounds. -/
def crcTableEntry (c : Nat) : Nat := crcRound^[8] c

/-- Process one byte of input into the running CRC-32 state. -/
def crcStep (s b : Nat) : Nat :=
  (s >>> 8) ^^^ crcTableEntry ((s ^^^ b) &&& 255)

/-- CRC-32 (IEEE) of a byte sequence.
Modelled from the spec: checksum_ieee comes from the external crc crate,
not among the provided sources; the spec fixes the algorithm as CRC32
with the IEEE polynomial, which is the standard reflected CRC-32 with
initial value 0xFFFFFFFF and final complement. -/
def checksum_ieee (l : List Nat) : Nat :=
  (l.foldl crcStep 0xFFFFFFFF) ^^^ 0xFFFFFFFF

/-- Evolution of a CRC state perturbation across one input byte:
processing the same byte maps a state difference d to crcAdvance d. -/
def crcAdvance (d : Nat) : Nat := (d >>> 8) ^^^ crcTableEntry (d &&& 255)

/-- Embedding of the slice operation raw[a..b] on byte buffers. -/
def sliceRange (l : List Nat) (a b : Nat) : List Nat := (l.drop a).take (b - a)

structure ScTableCatalogItem where
  key_off : Nat
  key_len : Nat
  value_off : Nat
  value_len : Nat
deriving DecidableEq

def ScTableCatalogItem.deserialize (bytes : List Nat) : ScTableCatalogItem :=
  { key_off := decode_fixed32 (sliceRange bytes 0 4)
    key_len := decode_fixed32 (sliceRange bytes 4 8)
    value_off := decode_fixed32 (sliceRange bytes 8 12)
    value_len := decode_fixed32 (sliceRange bytes 12 16) }

def parseCatalog (dataLen : Nat) : List Nat → Except String (List ScTableCatalogItem)
  | b0 :: b1 :: b2 :: b3 :: b4 :: b5 :: b6 :: b7
      :: b8 :: b9 :: b10 :: b11 :: b12 :: b13 :: b14 :: b15 :: rest =>
    let index := ScTableCatalogItem.deserialize
      [b0, b1, b2, b3, b4, b5, b6, b7, b8, b9, b10, b11, b12, b13, b14, b15]
    if (index.key_off + index.key_len) % 4294967296 ≥ dataLen
        ∨ (index.value_off + index.value_len) % 4294967296 ≥ dataLen then
      Except.error "incorrect key/value catalog data"
    else
      (parseCatalog dataLen rest).map (fun items => index :: items)
  | _ => Except.ok []

structure ScTableCache where
  catalog : List ScTableCatalogItem
  data : List Nat
deriving DecidableEq

def kvCatalogSizeOf (raw : List Nat) : Nat := decode_fixed32 (sliceRange raw 0 4)

def dataSizeOf (raw : List Nat) : Nat := decode_fixed32 (sliceRange raw 4 8)

def kvCatalogOf (raw : List Nat) : List Nat :=
  sliceRange raw TABLE_HEAD_SIZE (TABLE_HEAD_SIZE + kvCatalogSizeOf raw)

def dataOf (raw : List Nat) : List Nat :=
  sliceRange raw (TABLE_HEAD_SIZE + kvCatalogSizeOf raw)
    (TABLE_HEAD_SIZE + kvCatalogSizeOf raw + dataSizeOf raw)

def ScTableCache.from_raw (raw : List Nat) : Except String ScTableCache :=
  if raw.length < TABLE_MIN_SIZE then
    Except.error "too small to be a table file"
  else if sliceRange raw (raw.length - TABLE_MAGIC_SIZE) raw.length ≠ TABLE_MAGIC then
    Except.error "incorrect table magic"
  else if kvCatalogSizeOf raw % TABLE_INDEX_SIZE ≠ 0 then
    Except.error "catalog size should be multiplication of 16"
  else if kvCatalogSizeOf raw + dataSizeOf raw + TABLE_MIN_SIZE ≠ raw.length then
    Except.error "incorrect table size"
  else if checksum_ieee (kvCatalogOf raw) ≠ decode_fixed32 (sliceRange raw 8 12) then
    Except.error "incorrect kv_catalog crc"
  else if checksum_ieee (dataOf raw) ≠ decode_fixed32 (sliceRange raw 12 16) then
    Except.error "incorrect data crc"
  else
    (parseCatalog (dataOf raw).length (kvCatalogOf raw)).map
      (fun items => { catalog := items, data := dataOf raw })

def serializeItem (it : ScTableCatalogItem) : List Nat :=
  encode_fixed32 it.key_off ++ encode_fixed32 it.key_len
    ++ encode_fixed32 it.value_off ++ encode_fixed32 it.value_len

def catalogBytes (items : List ScTableCatalogItem) : List Nat :=
  (items.map serializeItem).flatten

def mkTable (items : List ScTableCatalogItem) (data : List Nat) : List Nat :=
  let catalog := catalogBytes items
  encode_fixed32 catalog.length ++ encode_fixed32 data.length
    ++ encode_fixed32 (checksum_ieee catalog) ++ encode_fixed32 (checksum_ieee data)
    ++ catalog ++ data ++ TABLE_MAGIC

/-- A catalog item resolves to byte ranges fully inside a data region of
the given length (the half-open ranges end at or before dataLen). -/
def itemInsideData (it : ScTableCatalogItem) (dataLen : Nat) : Prop :=
  it.key_off + it.key_len ≤ dataLen ∧ it.value_off + it.value_len ≤ dataLen

abbrev Cmp := List Nat → List Nat → Ordering

inductive UserKey where
  | owned (data : List Nat)
  | borrow (data : List Nat)
deriving DecidableEq

def UserKey.key : UserKey → List Nat
  | owned d => d
  | borrow d => d

def UserKey.is_owned : UserKey → Bool
  | owned _ => true
  | borrow _ => false

def UserKey.clone : UserKey → UserKey
  | owned d => owned d
  | borrow d => borrow d

def UserKey.cmp (comp : Cmp) (a b : UserKey) : Ordering :=
  comp a.key b.key

structure InternalKey where
  seq : Nat
  user_key : UserKey
deriving DecidableEq

def InternalKey.cmp (comp : Cmp) (a b : InternalKey) : Ordering :=
  let ord := compare a.seq b.seq
  if ord = Ordering.eq then UserKey.cmp comp a.user_key b.user_key else ord

def defaultComparator : Cmp
  | [], [] => Ordering.eq
  | [], _ :: _ => Ordering.lt
  | _ :: _, [] => Ordering.gt
  | x :: xs, y :: ys =>
    match compare x y with
    | Ordering.eq => defaultComparator xs ys
    | o => o

abbrev MemTable := List (InternalKey × List Nat)

def mtGet (comp : Cmp) : MemTable → InternalKey → Option (List Nat)
  | [], _ => none
  | (k0, v0) :: rest, k =>
    if InternalKey.cmp comp k0 k = Ordering.eq then some v0 else mtGet comp rest k

def mtInsert (comp : Cmp) : MemTable → InternalKey → List Nat → MemTable
  | [], k, v => [(k, v)]
  | (k0, v0) :: rest, k, v =>
    if InternalKey.cmp comp k0 k = Ordering.eq then (k0, v) :: rest
    else (k0, v0) :: mtInsert comp rest k v

structure Options where
  table_size : Nat
deriving DecidableEq

structure PartitionImpl where
  mem_table : MemTable
  mem_table_data_size : Nat
  imm_table : Option MemTable
  lower_bound : Option UserKey
  upper_bound : Option UserKey
  options : Options
deriving DecidableEq

def PartitionImpl.new (options : Options) : PartitionImpl :=
  { mem_table := [], mem_table_data_size := 0, imm_table := none,
    lower_bound := none, upper_bound := none, options := options }

def PartitionImpl.memtable_size (p : PartitionImpl) : Nat :=
  p.mem_table_data_size + p.mem_table.length * TABLE_CATALOG_ITEM_SIZE + TABLE_MIN_SIZE

def PartitionImpl.get (comp : Cmp) (p : PartitionImpl) (key : InternalKey) :
    Option (Option (List Nat)) :=
  match mtGet comp p.mem_table key with
  | some v => some (some v)
  | none =>
    match p.imm_table with
    | some imm =>
      match mtGet comp imm key with
      | some v => some (some v)
      | none => none
    | none => none

def entryFootprint (key : InternalKey) (value : List Nat) : Nat :=
  key.user_key.key.length + value.length + TABLE_CATALOG_ITEM_SIZE

def PartitionImpl.putEntersFreezeBranch (p : PartitionImpl) (key : InternalKey)
    (value : List Nat) : Bool :=
  decide (p.memtable_size + entryFootprint key value > p.options.table_size)

def PartitionImpl.put (comp : Cmp) (p : PartitionImpl) (key : InternalKey)
    (value : List Nat) : PartitionImpl :=
  let p1 :=
    if p.lower_bound.isNone && p.upper_bound.isNone then
      { p with lower_bound := some key.user_key.clone,
               upper_bound := some key.user_key.clone }
    else p
  { p1 with mem_table := mtInsert comp p1.mem_table key value }

def runPuts (comp : Cmp) (opts : Options) (ops : List (InternalKey × List Nat)) :
    PartitionImpl :=
  ops.foldl (fun p kv => p.put comp kv.1 kv.2) (PartitionImpl.new opts)

def specFootprintEstimate (ops : List (InternalKey × List Nat)) : Nat :=
  (ops.map (fun kv => kv.1.user_key.key.length + kv.2.length)).sum
    + ops.length * TABLE_CATALOG_ITEM_SIZE + TABLE_MIN_SIZE

def Partition.cmpPartial (comp : Cmp) (a b : PartitionImpl) :
    Option (Option Ordering) :=
  match a.upper_bound, b.lower_bound with
  | some su, some ol =>
    if UserKey.cmp comp su ol = Ordering.lt then some (some Ordering.lt)
    else
      match a.lower_bound, b.upper_bound with
      | some sl, some ou =>
        if UserKey.cmp comp sl ou = Ordering.gt then some (some Ordering.gt)
        else some none
      | _, _ => none
  | _, _ => none

def Partition.cmpTotal (comp : Cmp) (a b : PartitionImpl) : Option Ordering :=
  match Partition.cmpPartial comp a b with
  | some (some o) => some o
  | some none => none
  | none => none

def Partition.eq (a b : PartitionImpl) : Bool := false

def p1 : PartitionImpl :=
  (PartitionImpl.new ⟨1000⟩).put defaultComparator ⟨1, UserKey.owned [97]⟩ [49]

def pA : PartitionImpl :=
  { mem_table := [], mem_table_data_size := 0, imm_table := none,
    lower_bound := some (UserKey.owned [97]), upper_bound := some (UserKey.owned [98]),
    options := ⟨100⟩ }

def pB : PartitionImpl :=
  { mem_table := [], mem_table_data_size := 0, imm_table := none,
    lower_bound := some (UserKey.owned [99]), upper_bound := some (UserKey.owned [100]),
    options := ⟨100⟩ }

def pEmpty : PartitionImpl := PartitionImpl.new ⟨100⟩

inductive QThread where
  | checking
  | admitted
  | holding
  | released
deriving DecidableEq, BEq

structure QState where
  current_cache_count : Nat
  threads : List QThread
deriving DecidableEq

def liveGuards (s : QState) : Nat := s.threads.count QThread.holding

inductive QStep (cache_count : Nat) : QState → QState → Prop where
  | observeBelow (s : QState) (i : Nat) :
      s.threads.get? i = some QThread.checking →
      s.current_cache_count < cache_count →
      QStep cache_count s
        { current_cache_count := s.current_cache_count,
          threads := s.threads.set i QThread.admitted }
  | fetchAdd (s : QState) (i : Nat) :
      s.threads.get? i = some QThread.admitted →
      QStep cache_count s
        { current_cache_count := s.current_cache_count + 1,
          threads := s.threads.set i QThread.holding }
  | dropQuota (s : QState) (i : Nat) :
      s.threads.get? i = some QThread.holding →
      QStep cache_count s
        { current_cache_count := s.current_cache_count - 1,
          threads := s.threads.set i QThread.released }

inductive QReach (cache_count : Nat) : QState → Prop where
  | init (n : Nat) :
      QReach cache_count
        { current_cache_count := 0, threads := List.replicate n QThread.checking }
  | step (s t : QState) : QReach cache_count s → QStep cache_count s t →
      QReach cache_count t

structure CmpLawful (comp : Cmp) : Prop where
  swap_gt : ∀ a b, comp a b = Ordering.gt ↔ comp b a = Ordering.lt
  le_lt_trans : ∀ a b c, comp a b ≠ Ordering.gt → comp b c = Ordering.lt →
    comp a c = Ordering.lt
  lt_le_trans : ∀ a b c, comp a b = Ordering.lt → comp b c ≠ Ordering.gt →
    comp a c = Ordering.lt
  lt_irrefl : ∀ a, comp a a ≠ Ordering.lt

theorem xor_shiftRight_distrib (a b n : Nat) :
    (a ^^^ b) >>> n = (a >>> n) ^^^ (b >>> n) := by
  apply Nat.eq_of_testBit_eq
  intro i
  simp [Nat.testBit_shiftRight, Nat.testBit_xor]

theorem xor_and_distrib (a b m : Nat) :
    (a ^^^ b) &&& m = (a &&& m) ^^^ (b &&& m) := by
  apply Nat.eq_of_testBit_eq
  intro i
  simp only [Nat.testBit_and, Nat.testBit_xor]
  cases a.testBit i <;> cases b.testBit i <;> cases m.testBit i <;> rfl

theorem xor_xor_comm (a b c d : Nat) :
    (a ^^^ b) ^^^ (c ^^^ d) = (a ^^^ c) ^^^ (b ^^^ d) := by
  apply Nat.eq_of_testBit_eq
  intro i
  simp only [Nat.testBit_xor]
  cases a.testBit i <;> cases b.testBit i <;> cases c.testBit i <;> cases d.testBit i <;> rfl

theorem crcRound_eq (t : Nat) :
    crcRound t = (t >>> 1) ^^^ (if t % 2 = 1 then CRC_IEEE_POLY else 0) := by
  unfold crcRound
  rcases Nat.mod_two_eq_zero_or_one t with h | h <;>
    simp [h, Nat.shiftRight_one]

theorem crcRound_xor (a b : Nat) :
    crcRound (a ^^^ b) = crcRound a ^^^ crcRound b := by
  rw [crcRound_eq, crcRound_eq, crcRound_eq, xor_shiftRight_distrib, xor_xor_comm]
  congr 1
  have hab : (a ^^^ b) % 2 = (a % 2) ^^^ (b % 2) := by
    rw [← Nat.and_one_is_mod, ← Nat.and_one_is_mod, ← Nat.and_one_is_mod,
      xor_and_distrib]
  rcases Nat.mod_two_eq_zero_or_one a with ha | ha <;>
  rcases Nat.mod_two_eq_zero_or_one b with hb | hb <;>
    simp [ha, hb, hab]

theorem crcRound_iterate_xor (k a b : Nat) :
    crcRound^[k] (a ^^^ b) = crcRound^[k] a ^^^ crcRound^[k] b := by
  induction k generalizing a b with
  | zero => rfl
  | succ n ih =>
    rw [Function.iterate_succ_apply, Function.iterate_succ_apply,
      Function.iterate_succ_apply, crcRound_xor, ih]

theorem crcTableEntry_xor (a b : Nat) :
    crcTableEntry (a ^^^ b) = crcTableEntry a ^^^ crcTableEntry b :=
  crcRound_iterate_xor 8 a b

theorem crcStep_state_xor (s d b : Nat) :
    crcStep (s ^^^ d) b = crcStep s b ^^^ crcAdvance d := by
  unfold crcStep crcAdvance
  rw [xor_shiftRight_distrib]
  have h1 : ((s ^^^ d) ^^^ b) = (s ^^^ b) ^^^ d := by
    rw [Nat.xor_assoc, Nat.xor_assoc, Nat.xor_comm d b]
  rw [h1, xor_and_distrib, crcTableEntry_xor, xor_xor_comm]

theorem crcStep_byte_xor (s b e : Nat) :
    crcStep s (b ^^^ e) = crcStep s b ^^^ crcTableEntry (e &&& 255) := by
  unfold crcStep
  have h1 : (s ^^^ (b ^^^ e)) = (s ^^^ b) ^^^ e := (Nat.xor_assoc s b e).symm
  rw [h1, xor_and_distrib, crcTableEntry_xor, Nat.xor_assoc]

theorem foldl_crcStep_xor (l : List Nat) (s d : Nat) :
    l.foldl crcStep (s ^^^ d) = l.foldl crcStep s ^^^ crcAdvance^[l.length] d := by
  induction l generalizing s d with
  | nil => rfl
  | cons c l ih =>
    simp only [List.foldl_cons, List.length_cons]
    rw [crcStep_state_xor, ih, Function.iterate_succ_apply]

theorem crcTableEntry_ge_aux :
    ∀ c : Fin 256, c.val ≠ 0 → 16777216 ≤ crcTableEntry c.val := by decide

theorem crcTableEntry_lt_aux :
    ∀ c : Fin 256, crcTableEntry c.val < 4294967296 := by decide

theorem crcTableEntry_ge {c : Nat} (h : c < 256) (hne : c ≠ 0) :
    16777216 ≤ crcTableEntry c :=
  crcTableEntry_ge_aux ⟨c, h⟩ hne

theorem crcTableEntry_lt {c : Nat} (h : c < 256) :
    crcTableEntry c < 4294967296 :=
  crcTableEntry_lt_aux ⟨c, h⟩

theorem and_255_eq_mod (d : Nat) : d &&& 255 = d % 256 := by
  simpa using Nat.and_pow_two_sub_one_eq_mod d 8

theorem and_255_lt (d : Nat) : d &&& 255 < 256 := by
  rw [and_255_eq_mod]; omega

theorem shiftRight8_eq (d : Nat) : d >>> 8 = d / 256 :=
  Nat.shiftRight_eq_div_pow d 8

theorem crcAdvance_lt {d : Nat} (h : d < 4294967296) :
    crcAdvance d < 4294967296 := by
  unfold crcAdvance
  have h1 : d >>> 8 < 4294967296 := by rw [shiftRight8_eq]; omega
  have h2 : crcTableEntry (d &&& 255) < 4294967296 := crcTableEntry_lt (and_255_lt d)
  have h3 := @Nat.xor_lt_two_pow (d >>> 8) (crcTableEntry (d &&& 255)) 32
    (by norm_num; exact h1) (by norm_num; exact h2)
  norm_num at h3
  exact h3

theorem crcAdvance_eq_zero {d : Nat} (h32 : d < 4294967296)
    (h : crcAdvance d = 0) : d = 0 := by
  unfold crcAdvance at h
  rw [Nat.xor_eq_zero] at h
  by_cases hlo : d &&& 255 = 0
  · rw [hlo] at h
    have hT0 : crcTableEntry 0 = 0 := by decide
    rw [hT0, shiftRight8_eq] at h
    have hm : d % 256 = 0 := by rw [← and_255_eq_mod]; exact hlo
    omega
  · have hge : 16777216 ≤ crcTableEntry (d &&& 255) :=
      crcTableEntry_ge (and_255_lt d) hlo
    have hlt : d >>> 8 < 16777216 := by rw [shiftRight8_eq]; omega
    omega

theorem crcAdvance_iterate_ne_zero (k : Nat) {d : Nat} (h32 : d < 4294967296)
    (hne : d ≠ 0) : crcAdvance^[k] d ≠ 0 := by
  induction k generalizing d with
  | zero => exact hne
  | succ n ih =>
    rw [Function.iterate_succ_apply]
    by_cases hz : crcAdvance d = 0
    · exact absurd (crcAdvance_eq_zero h32 hz) hne
    · exact ih (crcAdvance_lt h32) hz

theorem checksum_single_byte_flip (p s : List Nat) (b b' : Nat)
    (hb : b < 256) (hb' : b' < 256) (hne : b ≠ b') :
    checksum_ieee (p ++ b :: s) ≠ checksum_ieee (p ++ b' :: s) := by
  unfold checksum_ieee
  intro heq
  have hfold : (p ++ b :: s).foldl crcStep 0xFFFFFFFF
      = (p ++ b' :: s).foldl crcStep 0xFFFFFFFF := by
    have h2 := congrArg (fun z => z ^^^ 0xFFFFFFFF) heq
    simpa [Nat.xor_assoc] using h2
  rw [List.foldl_append, List.foldl_append] at hfold
  simp only [List.foldl_cons] at hfold
  set s0 := p.foldl crcStep 0xFFFFFFFF with hs0
  set e := b ^^^ b' with hedef
  have he : b' = b ^^^ e := by
    rw [hedef, ← Nat.xor_assoc, Nat.xor_self, Nat.zero_xor]
  have he256 : e < 256 := by
    have h4 := @Nat.xor_lt_two_pow b b' 8 (by norm_num; exact hb) (by norm_num; exact hb')
    norm_num at h4
    exact h4
  have hene : e ≠ 0 := fun h0 => hne (Nat.xor_eq_zero.mp h0)
  rw [he, crcStep_byte_xor] at hfold
  have hee : e &&& 255 = e := by rw [and_255_eq_mod]; omega
  rw [hee, foldl_crcStep_xor] at hfold
  have hTne : crcTableEntry e ≠ 0 := by
    have := crcTableEntry_ge he256 hene; omega
  have hTlt : crcTableEntry e < 4294967296 := crcTableEntry_lt he256
  have hiter := crcAdvance_iterate_ne_zero s.length hTlt hTne
  apply hiter
  have h3 := congrArg (fun z => (List.foldl crcStep (crcStep s0 b) s) ^^^ z) hfold
  simp only at h3
  rw [Nat.xor_self, ← Nat.xor_assoc, Nat.xor_self, Nat.zero_xor] at h3
  exact h3.symm

theorem decode_encode (n : Nat) (h : n < 4294967296) :
    decode_fixed32 (encode_fixed32 n) = n := by
  show n % 256 + 256 * (n / 256 % 256) + 65536 * (n / 65536 % 256)
      + 16777216 * (n / 16777216 % 256) = n
  omega

theorem sliceRange_mid (P Q : List Nat) (n k : Nat) (h : P.length = n) :
    sliceRange (P ++ Q) n (n + k) = Q.take k := by
  unfold sliceRange
  rw [List.drop_left' h]
  congr 1
  omega

theorem sliceRange_start (P Q : List Nat) (k : Nat) (h : P.length = k) :
    sliceRange (P ++ Q) 0 k = P := by
  unfold sliceRange
  rw [List.drop_zero]
  have hk : k - 0 = k := by omega
  rw [hk]
  exact List.take_left' h

theorem from_raw_components (C D M : List Nat) (c1 c2 : Nat)
    (hC : C.length < 4294967296) (hD : D.length < 4294967296)
    (hc1 : c1 < 4294967296) (hc2 : c2 < 4294967296)
    (hM : M.length = TABLE_MAGIC_SIZE) :
    ScTableCache.from_raw (encode_fixed32 C.length ++ encode_fixed32 D.length
        ++ encode_fixed32 c1 ++ encode_fixed32 c2 ++ C ++ D ++ M)
      = if M ≠ TABLE_MAGIC then Except.error "incorrect table magic"
        else if C.length % TABLE_INDEX_SIZE ≠ 0 then
          Except.error "catalog size should be multiplication of 16"
        else if checksum_ieee C ≠ c1 then Except.error "incorrect kv_catalog crc"
        else if checksum_ieee D ≠ c2 then Except.error "incorrect data crc"
        else (parseCatalog D.length C).map
          (fun items => { catalog := items, data := D }) := by
  set E1 := encode_fixed32 C.length with hE1
  set E2 := encode_fixed32 D.length with hE2
  set E3 := encode_fixed32 c1 with hE3
  set E4 := encode_fixed32 c2 with hE4
  set raw := E1 ++ E2 ++ E3 ++ E4 ++ C ++ D ++ M with hraw
  have he1 : E1.length = 4 := by simp [hE1, encode_fixed32]
  have he2 : E2.length = 4 := by simp [hE2, encode_fixed32]
  have he3 : E3.length = 4 := by simp [hE3, encode_fixed32]
  have he4 : E4.length = 4 := by simp [hE4, encode_fixed32]
  have hMlen : M.length = 4 := hM
  have hlen : raw.length = 16 + C.length + D.length + 4 := by
    simp [hraw, he1, he2, he3, he4, hMlen]
    omega
  have hs1 : sliceRange raw 0 4 = E1 := by
    have hr : raw = E1 ++ (E2 ++ E3 ++ E4 ++ C ++ D ++ M) := by
      simp [hraw, List.append_assoc]
    rw [hr]
    exact sliceRange_start _ _ _ he1
  have hs2 : sliceRange raw 4 8 = E2 := by
    have hr : raw = E1 ++ (E2 ++ (E3 ++ E4 ++ C ++ D ++ M)) := by
      simp [hraw, List.append_assoc]
    rw [hr]
    have h := sliceRange_mid E1 (E2 ++ (E3 ++ E4 ++ C ++ D ++ M)) 4 4 he1
    simpa [List.take_left' he2] using h
  have hs3 : sliceRange raw 8 12 = E3 := by
    have hr : raw = (E1 ++ E2) ++ (E3 ++ (E4 ++ C ++ D ++ M)) := by
      simp [hraw, List.append_assoc]
    rw [hr]
    have h12 : (E1 ++ E2).length = 8 := by simp [he1, he2]
    have h := sliceRange_mid (E1 ++ E2) (E3 ++ (E4 ++ C ++ D ++ M)) 8 4 h12
    simpa [List.take_left' he3] using h
  have hs4 : sliceRange raw 12 16 = E4 := by
    have hr : raw = (E1 ++ E2 ++ E3) ++ (E4 ++ (C ++ D ++ M)) := by
      simp [hraw, List.append_assoc]
    rw [hr]
    have h123 : (E1 ++ E2 ++ E3).length = 12 := by simp [he1, he2, he3]
    have h := sliceRange_mid (E1 ++ E2 ++ E3) (E4 ++ (C ++ D ++ M)) 12 4 h123
    simpa [List.take_left' he4] using h
  have hksz : kvCatalogSizeOf raw = C.length := by
    rw [kvCatalogSizeOf, hs1, hE1, decode_encode _ hC]
  have hdsz : dataSizeOf raw = D.length := by
    rw [dataSizeOf, hs2, hE2, decode_encode _ hD]
  have hscat : kvCatalogOf raw = C := by
    rw [kvCatalogOf, hksz]
    show sliceRange raw 16 (16 + C.length) = C
    have hr : raw = (E1 ++ E2 ++ E3 ++ E4) ++ (C ++ (D ++ M)) := by
      simp [hraw, List.append_assoc]
    rw [hr]
    have hH : (E1 ++ E2 ++ E3 ++ E4).length = 16 := by simp [he1, he2, he3, he4]
    have h := sliceRange_mid (E1 ++ E2 ++ E3 ++ E4) (C ++ (D ++ M)) 16 C.length hH
    simpa [List.take_left' rfl] using h
  have hsdata : dataOf raw = D := by
    rw [dataOf, hksz, hdsz]
    show sliceRange raw (16 + C.length) (16 + C.length + D.length) = D
    have hr : raw = ((E1 ++ E2 ++ E3 ++ E4) ++ C) ++ (D ++ M) := by
      simp [hraw, List.append_assoc]
    rw [hr]
    have hHC : ((E1 ++ E2 ++ E3 ++ E4) ++ C).length = 16 + C.length := by
      simp [he1, he2, he3, he4]
      omega
    have h := sliceRange_mid _ (D ++ M) (16 + C.length) D.length hHC
    simpa [List.take_left' rfl] using h
  have hsmagic : sliceRange raw (raw.length - TABLE_MAGIC_SIZE) raw.length = M := by
    have hr : raw = ((E1 ++ E2 ++ E3 ++ E4 ++ C) ++ D) ++ M := by
      simp [hraw, List.append_assoc]
    have hpre : (((E1 ++ E2 ++ E3 ++ E4 ++ C) ++ D)).length
        = raw.length - TABLE_MAGIC_SIZE := by
      simp only [List.length_append]
      rw [hlen]
      simp [he1, he2, he3, he4, TABLE_MAGIC_SIZE, TABLE_MAGIC]
    unfold sliceRange
    rw [hr, List.drop_left' hpre]
    have h4 : raw.length - (raw.length - TABLE_MAGIC_SIZE) = 4 := by
      rw [hlen]
      simp [TABLE_MAGIC_SIZE, TABLE_MAGIC]
    rw [h4, ← hMlen]
    exact List.take_length M
  unfold ScTableCache.from_raw
  rw [if_neg (by
    rw [hlen]
    have h20 : TABLE_MIN_SIZE = 20 := rfl
    rw [h20]
    omega)]
  rw [hsmagic, hksz, hdsz, hscat, hsdata, hs3, hs4, hE3, hE4]
  rw [decode_encode _ hc1, decode_encode _ hc2]
  by_cases hmagic : M = TABLE_MAGIC
  · simp only [hmagic, ne_eq, not_true_eq_false, if_false, ite_false]
    by_cases hmod : C.length % TABLE_INDEX_SIZE = 0
    · simp only [hmod, ne_eq, not_true_eq_false, ite_false]
      rw [if_neg (by
        rw [hlen]
        have h20 : TABLE_MIN_SIZE = 20 := rfl
        rw [h20]
        omega)]
    · simp [hmod]
  · simp [hmagic]

theorem defaultComparator_self (a : List Nat) :
    defaultComparator a a = Ordering.eq := by
  induction a with
  | nil => rfl
  | cons x xs ih =>
    simp [defaultComparator, Nat.compare_eq_eq.mpr rfl, ih]

theorem defaultComparator_swap_gt (a : List Nat) : ∀ (b : List Nat),
    defaultComparator a b = Ordering.gt ↔ defaultComparator b a = Ordering.lt := by
  induction a with
  | nil =>
    intro b
    cases b <;> simp [defaultComparator]
  | cons x xs ih =>
    intro b
    cases b with
    | nil => simp [defaultComparator]
    | cons y ys =>
      cases hxy : compare x y with
      | lt =>
        have hyx : compare y x = Ordering.gt :=
          Nat.compare_eq_gt.mpr (Nat.compare_eq_lt.mp hxy)
        simp [defaultComparator, hxy, hyx]
      | eq =>
        have hyx : compare y x = Ordering.eq :=
          Nat.compare_eq_eq.mpr (Nat.compare_eq_eq.mp hxy).symm
        simp [defaultComparator, hxy, hyx, ih ys]
      | gt =>
        have hyx : compare y x = Ordering.lt :=
          Nat.compare_eq_lt.mpr (Nat.compare_eq_gt.mp hxy)
        simp [defaultComparator, hxy, hyx]

theorem defaultComparator_le_lt_trans (a : List Nat) : ∀ (b c : List Nat),
    defaultComparator a b ≠ Ordering.gt → defaultComparator b c = Ordering.lt →
    defaultComparator a c = Ordering.lt := by
  induction a with
  | nil =>
    intro b c h1 h2
    cases c with
    | nil =>
      cases b with
      | nil => exact absurd h2 (by simp [defaultComparator])
      | cons y ys => exact absurd h2 (by simp [defaultComparator])
    | cons z zs => rfl
  | cons x xs ih =>
    intro b c h1 h2
    cases b with
    | nil => exact absurd rfl h1
    | cons y ys =>
      cases c with
      | nil => exact absurd h2 (by simp [defaultComparator])
      | cons z zs =>
        cases hxy : compare x y with
        | gt => exact absurd (by simp [defaultComparator, hxy]) h1
        | lt =>
          have hx : x < y := Nat.compare_eq_lt.mp hxy
          cases hyz : compare y z with
          | gt => exact absurd h2 (by simp [defaultComparator, hyz])
          | lt =>
            have hy : y < z := Nat.compare_eq_lt.mp hyz
            simp [defaultComparator, Nat.compare_eq_lt.mpr (Nat.lt_trans hx hy)]
          | eq =>
            have hy : y = z := Nat.compare_eq_eq.mp hyz
            simp [defaultComparator, Nat.compare_eq_lt.mpr (hy ▸ hx)]
        | eq =>
          have hx : x = y := Nat.compare_eq_eq.mp hxy
          cases hyz : compare y z with
          | gt => exact absurd h2 (by simp [defaultComparator, hyz])
          | lt =>
            have hy : y < z := Nat.compare_eq_lt.mp hyz
            simp [defaultComparator, Nat.compare_eq_lt.mpr (hx ▸ hy)]
          | eq =>
            have hy : y = z := Nat.compare_eq_eq.mp hyz
            have hxz : compare x z = Ordering.eq := Nat.compare_eq_eq.mpr (hx.trans hy)
            have h1x : defaultComparator xs ys ≠ Ordering.gt := by
              simp [defaultComparator, hxy] at h1
              exact h1
            have h2x : defaultComparator ys zs = Ordering.lt := by
              simp [defaultComparator, hyz] at h2
              exact h2
            simp [defaultComparator, hxz, ih ys zs h1x h2x]

theorem defaultComparator_lt_le_trans (a : List Nat) : ∀ (b c : List Nat),
    defaultComparator a b = Ordering.lt → defaultComparator b c ≠ Ordering.gt →
    defaultComparator a c = Ordering.lt := by
  induction a with
  | nil =>
    intro b c h1 h2
    cases c with
    | nil =>
      cases b with
      | nil => exact absurd h1 (by simp [defaultComparator])
      | cons y ys => exact absurd (by simp [defaultComparator]) h2
    | cons z zs => rfl
  | cons x xs ih =>
    intro b c h1 h2
    cases b with
    | nil => exact absurd h1 (by simp [defaultComparator])
    | cons y ys =>
      cases c with
      | nil => exact absurd (by simp [defaultComparator]) h2
      | cons z zs =>
        cases hxy : compare x y with
        | gt => exact absurd h1 (by simp [defaultComparator, hxy])
        | lt =>
          have hx : x < y := Nat.compare_eq_lt.mp hxy
          cases hyz : compare y z with
          | gt => exact absurd (by simp [defaultComparator, hyz]) h2
          | lt =>
            have hy : y < z := Nat.compare_eq_lt.mp hyz
            simp [defaultComparator, Nat.compare_eq_lt.mpr (Nat.lt_trans hx hy)]
          | eq =>
            have hy : y = z := Nat.compare_eq_eq.mp hyz
            simp [defaultComparator, Nat.compare_eq_lt.mpr (hy ▸ hx)]
        | eq =>
          have hx : x = y := Nat.compare_eq_eq.mp hxy
          cases hyz : compare y z with
          | gt => exact absurd (by simp [defaultComparator, hyz]) h2
          | lt =>
            have hy : y < z := Nat.compare_eq_lt.mp hyz
            simp [defaultComparator, Nat.compare_eq_lt.mpr (hx ▸ hy)]
          | eq =>
            have hy : y = z := Nat.compare_eq_eq.mp hyz
            have hxz : compare x z = Ordering.eq := Nat.compare_eq_eq.mpr (hx.trans hy)
            have h1x : defaultComparator xs ys = Ordering.lt := by
              simp [defaultComparator, hxy] at h1
              exact h1
            have h2x : defaultComparator ys zs ≠ Ordering.gt := by
              simp [defaultComparator, hyz] at h2
              exact h2
            simp [defaultComparator, hxz, ih ys zs h1x h2x]

theorem defaultComparator_lawful : CmpLawful defaultComparator where
  swap_gt := defaultComparator_swap_gt
  le_lt_trans := defaultComparator_le_lt_trans
  lt_le_trans := defaultComparator_lt_le_trans
  lt_irrefl := fun a => by simp [defaultComparator_self a]

theorem bounds_exclusive (comp : Cmp) (hc : CmpLawful comp) (al au bl bu : UserKey)
    (hA : UserKey.cmp comp al au ≠ Ordering.gt)
    (hB : UserKey.cmp comp bl bu ≠ Ordering.gt)
    (h1 : UserKey.cmp comp au bl = Ordering.lt) :
    UserKey.cmp comp al bu ≠ Ordering.gt := by
  intro h2
  have hba : comp bu.key al.key = Ordering.lt := (hc.swap_gt _ _).mp h2
  have h3 : comp bu.key au.key = Ordering.lt := hc.lt_le_trans _ _ _ hba hA
  have h4 : comp bu.key bl.key = Ordering.lt :=
    hc.lt_le_trans _ _ _ h3 (by
      show UserKey.cmp comp au bl ≠ Ordering.gt
      rw [h1]
      simp)
  have h5 : comp bu.key bu.key = Ordering.lt := hc.lt_le_trans _ _ _ h4 hB
  exact hc.lt_irrefl _ h5

/-- C5, confirmed: InternalKey comparison is the sequence-number-primary
total order: the result is lt, gt or eq exactly according to comparing the
sequence numbers first and, only on equal sequence numbers, comparing the
UserKeys through the Comparator as tie-break. -/
theorem claim5_internal_key_order (comp : Cmp) (a b : InternalKey) :
    (InternalKey.cmp comp a b = Ordering.lt
      ↔ a.seq < b.seq ∨ (a.seq = b.seq ∧ comp a.user_key.key b.user_key.key = Ordering.lt))
    ∧ (InternalKey.cmp comp a b = Ordering.gt
      ↔ b.seq < a.seq ∨ (a.seq = b.seq ∧ comp a.user_key.key b.user_key.key = Ordering.gt))
    ∧ (InternalKey.cmp comp a b = Ordering.eq
      ↔ a.seq = b.seq ∧ comp a.user_key.key b.user_key.key = Ordering.eq) := by
  unfold InternalKey.cmp UserKey.cmp
  rcases Nat.lt_trichotomy a.seq b.seq with h | h | h
  · have hc : compare a.seq b.seq = Ordering.lt := Nat.compare_eq_lt.mpr h
    simp [hc, h, Nat.lt_asymm h, Nat.ne_of_lt h]
  · have hcc : compare b.seq b.seq = Ordering.eq := Nat.compare_eq_eq.mpr rfl
    simp [h, hcc, Nat.lt_irrefl]
  · have hc : compare a.seq b.seq = Ordering.gt := Nat.compare_eq_gt.mpr h
    simp [hc, h, Nat.lt_asymm h, (Nat.ne_of_lt h).symm]

/-- C1, corrected: get probes the mutable table, then the frozen table if
present, and returns the found value; but when every in-memory source
misses it reaches the unimplemented on-disk fallthrough and panics
(modelled as none) instead of returning a missing-key result, so the
original claim that get falls through to the leveled on-disk tables and
returns None only after all sources miss does not hold on this code. -/
theorem claim1_amended (comp : Cmp) (p : PartitionImpl) (k : InternalKey) :
    (∀ v, mtGet comp p.mem_table k = some v → p.get comp k = some (some v))
    ∧ (∀ imm v, mtGet comp p.mem_table k = none → p.imm_table = some imm →
        mtGet comp imm k = some v → p.get comp k = some (some v))
    ∧ (mtGet comp p.mem_table k = none →
        (p.imm_table = none ∨ ∃ imm, p.imm_table = some imm ∧ mtGet comp imm k = none) →
        p.get comp k = none) := by
  refine ⟨?_, ?_, ?_⟩
  · intro v hv
    unfold PartitionImpl.get
    rw [hv]
  · intro imm v hm hi hv
    unfold PartitionImpl.get
    rw [hm, hi]
    simp [hv]
  · intro hm hcase
    unfold PartitionImpl.get
    rw [hm]
    rcases hcase with h | ⟨imm, hi, hv⟩
    · rw [h]
    · rw [hi]
      simp [hv]

theorem claim1_witness :
    PartitionImpl.get defaultComparator p1 ⟨1, UserKey.owned [98]⟩ = none :=
  (claim1_amended defaultComparator p1 ⟨1, UserKey.owned [98]⟩).2.2 rfl (Or.inl rfl)

/-- C1 counterexample: after put(seq 1, key a, value 1) on a fresh
partition, get(seq 1, key a) returns the value, but get(seq 1, key b)
panics at the unimplemented on-disk fallthrough (result none) and in
particular does not return the claimed missing-key result (some none). -/
theorem claim1_counterexample :
    PartitionImpl.get defaultComparator p1 ⟨1, UserKey.owned [97]⟩ = some (some [49])
    ∧ PartitionImpl.get defaultComparator p1 ⟨1, UserKey.owned [98]⟩ ≠ some none
    ∧ PartitionImpl.get defaultComparator p1 ⟨1, UserKey.owned [98]⟩ = none := by
  refine ⟨rfl, by decide, rfl⟩

/-- C2, code bug: the footprint estimate used by put never includes the
accumulated per-entry data size, because no code path ever updates the
mem_table_data_size field: after inserting the entry (key a, value 1) the
estimate still equals the fixed overheads alone, while the specified
estimate also counts the two data bytes. -/
theorem claim2_code_bug :
    ((PartitionImpl.new ⟨1000000⟩).put defaultComparator
        ⟨1, UserKey.owned [97]⟩ [49]).memtable_size
      = TABLE_MIN_SIZE + TABLE_CATALOG_ITEM_SIZE
    ∧ specFootprintEstimate [(⟨1, UserKey.owned [97]⟩, [49])]
      = TABLE_MIN_SIZE + TABLE_CATALOG_ITEM_SIZE + 2
    ∧ ((PartitionImpl.new ⟨1000000⟩).put defaultComparator
        ⟨1, UserKey.owned [97]⟩ [49]).memtable_size
      ≠ specFootprintEstimate [(⟨1, UserKey.owned [97]⟩, [49])] := by
  refine ⟨rfl, rfl, by decide⟩

theorem put_bounds_of_some (comp : Cmp) (p : PartitionImpl) (k : InternalKey)
    (v : List Nat) (h : p.lower_bound.isSome = true ∨ p.upper_bound.isSome = true) :
    (p.put comp k v).lower_bound = p.lower_bound
    ∧ (p.put comp k v).upper_bound = p.upper_bound := by
  unfold PartitionImpl.put
  rcases h with h | h <;>
  · cases hl : p.lower_bound <;> cases hu : p.upper_bound <;>
      simp_all

theorem put_bounds_of_none (comp : Cmp) (p : PartitionImpl) (k : InternalKey)
    (v : List Nat) (hl : p.lower_bound = none) (hu : p.upper_bound = none) :
    (p.put comp k v).lower_bound = some k.user_key.clone
    ∧ (p.put comp k v).upper_bound = some k.user_key.clone := by
  unfold PartitionImpl.put
  simp [hl, hu]

theorem foldl_put_bounds (comp : Cmp) (ops : List (InternalKey × List Nat))
    (p : PartitionImpl) (lb ub : UserKey)
    (hl : p.lower_bound = some lb) (hu : p.upper_bound = some ub) :
    (ops.foldl (fun q kv => q.put comp kv.1 kv.2) p).lower_bound = some lb
    ∧ (ops.foldl (fun q kv => q.put comp kv.1 kv.2) p).upper_bound = some ub := by
  induction ops generalizing p with
  | nil => exact ⟨hl, hu⟩
  | cons kv rest ih =>
    simp only [List.foldl_cons]
    have hs := put_bounds_of_some comp p kv.1 kv.2 (Or.inl (by rw [hl]; rfl))
    exact ih _ (hs.1.trans hl) (hs.2.trans hu)

theorem runPuts_first_sets_bounds (comp : Cmp) (opts : Options) (k : InternalKey)
    (v : List Nat) (rest : List (InternalKey × List Nat)) :
    (runPuts comp opts ((k, v) :: rest)).lower_bound = some k.user_key.clone
    ∧ (runPuts comp opts ((k, v) :: rest)).upper_bound = some k.user_key.clone := by
  unfold runPuts
  simp only [List.foldl_cons]
  have h0 := put_bounds_of_none comp (PartitionImpl.new opts) k v rfl rfl
  exact foldl_put_bounds comp rest _ _ _ h0.1 h0.2

theorem put_bounds_align (comp : Cmp) (p : PartitionImpl) (k : InternalKey)
    (v : List Nat) (h : p.lower_bound.isSome = p.upper_bound.isSome) :
    (p.put comp k v).lower_bound.isSome = (p.put comp k v).upper_bound.isSome := by
  unfold PartitionImpl.put
  cases hl : p.lower_bound <;> cases hu : p.upper_bound <;> simp_all

theorem runPuts_bounds_align (comp : Cmp) (opts : Options)
    (ops : List (InternalKey × List Nat)) :
    (runPuts comp opts ops).lower_bound.isSome
      = (runPuts comp opts ops).upper_bound.isSome := by
  unfold runPuts
  have hgen : ∀ (l : List (InternalKey × List Nat)) (p : PartitionImpl),
      p.lower_bound.isSome = p.upper_bound.isSome →
      (l.foldl (fun q kv => q.put comp kv.1 kv.2) p).lower_bound.isSome
        = (l.foldl (fun q kv => q.put comp kv.1 kv.2) p).upper_bound.isSome := by
    intro l
    induction l with
    | nil => intro p hp; exact hp
    | cons kv rest ih =>
      intro p hp
      simp only [List.foldl_cons]
      exact ih _ (put_bounds_align comp p kv.1 kv.2 hp)
  exact hgen ops (PartitionImpl.new opts) rfl

theorem clone_owned (k : UserKey) (h : k.is_owned = true) :
    k.clone = k ∧ k.clone.is_owned = true := by
  cases k with
  | owned d => exact ⟨rfl, rfl⟩
  | borrow d => simp [UserKey.is_owned] at h

/-- C7, confirmed: after any sequence of put calls lower_bound and
upper_bound are both present or both absent, and the first put ever made
to an empty partition sets both bounds to an owned clone of that write
UserKey. -/
theorem claim7_bounds_invariant (comp : Cmp) (opts : Options)
    (ops : List (InternalKey × List Nat)) (k : InternalKey) (v : List Nat)
    (rest : List (InternalKey × List Nat)) (hOwn : k.user_key.is_owned = true) :
    (runPuts comp opts ops).lower_bound.isSome
      = (runPuts comp opts ops).upper_bound.isSome
    ∧ (runPuts comp opts ((k, v) :: rest)).lower_bound = some k.user_key.clone
    ∧ (runPuts comp opts ((k, v) :: rest)).upper_bound = some k.user_key.clone
    ∧ k.user_key.clone.is_owned = true := by
  refine ⟨runPuts_bounds_align comp opts ops, ?_, ?_, (clone_owned _ hOwn).2⟩
  · exact (runPuts_first_sets_bounds comp opts k v rest).1
  · exact (runPuts_first_sets_bounds comp opts k v rest).2

theorem claim7_witness :
    (runPuts defaultComparator ⟨100⟩ []).lower_bound.isSome
      = (runPuts defaultComparator ⟨100⟩ []).upper_bound.isSome
    ∧ (runPuts defaultComparator ⟨100⟩
        [(⟨1, UserKey.owned [97]⟩, [49])]).lower_bound
      = some (UserKey.owned [97]).clone
    ∧ (runPuts defaultComparator ⟨100⟩
        [(⟨1, UserKey.owned [97]⟩, [49])]).upper_bound
      = some (UserKey.owned [97]).clone
    ∧ (UserKey.owned [97]).clone.is_owned = true :=
  claim7_bounds_invariant defaultComparator ⟨100⟩ [] ⟨1, UserKey.owned [97]⟩ [49] [] rfl

/-- C6 counterexample: writing key b then key a leaves lower_bound at b,
and the comparator orders b strictly greater than the written key a, so
lower_bound is not below every key ever written. -/
theorem claim6_counterexample :
    (runPuts defaultComparator ⟨1000⟩
      [(⟨1, UserKey.owned [98]⟩, [48]), (⟨2, UserKey.owned [97]⟩, [48])]).lower_bound
      = some (UserKey.owned [98])
    ∧ defaultComparator (UserKey.owned [98]).key (UserKey.owned [97]).key
      = Ordering.gt := ⟨rfl, rfl⟩

/-- C6, corrected: put sets the bounds only on the first write and never
updates them afterwards, so after any nonempty sequence of puts both
bounds equal a clone of the first written UserKey; the claimed invariant
holds for that first key (for a reflexive comparator) but not for later
out-of-range writes. -/
theorem claim6_amended (comp : Cmp) (opts : Options) (k : InternalKey)
    (v : List Nat) (rest : List (InternalKey × List Nat))
    (hrefl : comp k.user_key.key k.user_key.key = Ordering.eq) :
    (runPuts comp opts ((k, v) :: rest)).lower_bound = some k.user_key.clone
    ∧ (runPuts comp opts ((k, v) :: rest)).upper_bound = some k.user_key.clone
    ∧ UserKey.cmp comp k.user_key.clone k.user_key ≠ Ordering.gt
    ∧ UserKey.cmp comp k.user_key k.user_key.clone ≠ Ordering.gt := by
  have hb := runPuts_first_sets_bounds comp opts k v rest
  have hck : k.user_key.clone.key = k.user_key.key := by
    cases k.user_key <;> rfl
  refine ⟨hb.1, hb.2, ?_, ?_⟩ <;>
    simp [UserKey.cmp, hck, hrefl]

theorem claim6_witness :
    (runPuts defaultComparator ⟨1000⟩
      [(⟨1, UserKey.owned [98]⟩, [48]), (⟨2, UserKey.owned [97]⟩, [48])]).lower_bound
      = some (UserKey.owned [98]).clone
    ∧ (runPuts defaultComparator ⟨1000⟩
      [(⟨1, UserKey.owned [98]⟩, [48]), (⟨2, UserKey.owned [97]⟩, [48])]).upper_bound
      = some (UserKey.owned [98]).clone
    ∧ UserKey.cmp defaultComparator (UserKey.owned [98]).clone (UserKey.owned [98])
      ≠ Ordering.gt
    ∧ UserKey.cmp defaultComparator (UserKey.owned [98]) (UserKey.owned [98]).clone
      ≠ Ordering.gt :=
  claim6_amended defaultComparator ⟨1000⟩ ⟨1, UserKey.owned [98]⟩ [48]
    [(⟨2, UserKey.owned [97]⟩, [48])] rfl

/-- C8, confirmed: for partitions with set, well-formed bounds under a
lawful comparator, partition comparison is by range containment only:
the result is Less exactly when A.upper is below B.lower, Greater exactly
when A.lower is above B.upper, no order (some none) exactly otherwise,
and equality between partitions never holds. -/
theorem claim8_partition_order (comp : Cmp) (hc : CmpLawful comp)
    (A B : PartitionImpl) (al au bl bu : UserKey)
    (hAl : A.lower_bound = some al) (hAu : A.upper_bound = some au)
    (hBl : B.lower_bound = some bl) (hBu : B.upper_bound = some bu)
    (hA : UserKey.cmp comp al au ≠ Ordering.gt)
    (hB : UserKey.cmp comp bl bu ≠ Ordering.gt) :
    (Partition.cmpPartial comp A B = some (some Ordering.lt)
      ↔ UserKey.cmp comp au bl = Ordering.lt)
    ∧ (Partition.cmpPartial comp A B = some (some Ordering.gt)
      ↔ UserKey.cmp comp al bu = Ordering.gt)
    ∧ (Partition.cmpPartial comp A B = some none
      ↔ (UserKey.cmp comp au bl ≠ Ordering.lt
          ∧ UserKey.cmp comp al bu ≠ Ordering.gt))
    ∧ Partition.eq A B = false := by
  have hred : Partition.cmpPartial comp A B
      = if UserKey.cmp comp au bl = Ordering.lt then some (some Ordering.lt)
        else if UserKey.cmp comp al bu = Ordering.gt then some (some Ordering.gt)
        else some none := by
    unfold Partition.cmpPartial
    rw [hAu, hBl, hAl, hBu]
  by_cases h1 : UserKey.cmp comp au bl = Ordering.lt
  · have hexcl := bounds_exclusive comp hc al au bl bu hA hB h1
    rw [hred]
    simp [h1, hexcl]
    rfl
  · by_cases h2 : UserKey.cmp comp al bu = Ordering.gt
    · rw [hred]
      simp [h1, h2]
      rfl
    · rw [hred]
      simp [h1, h2]
      rfl

theorem claim8_witness :
    (Partition.cmpPartial defaultComparator pA pB = some (some Ordering.lt)
      ↔ UserKey.cmp defaultComparator (UserKey.owned [98]) (UserKey.owned [99])
        = Ordering.lt)
    ∧ (Partition.cmpPartial defaultComparator pA pB = some (some Ordering.gt)
      ↔ UserKey.cmp defaultComparator (UserKey.owned [97]) (UserKey.owned [100])
        = Ordering.gt)
    ∧ (Partition.cmpPartial defaultComparator pA pB = some none
      ↔ (UserKey.cmp defaultComparator (UserKey.owned [98]) (UserKey.owned [99])
          ≠ Ordering.lt
        ∧ UserKey.cmp defaultComparator (UserKey.owned [97]) (UserKey.owned [100])
          ≠ Ordering.gt))
    ∧ Partition.eq pA pB = false :=
  claim8_partition_order defaultComparator defaultComparator_lawful pA pB
    (UserKey.owned [97]) (UserKey.owned [98]) (UserKey.owned [99]) (UserKey.owned [100])
    rfl rfl rfl rfl (by decide) (by decide)

/-- C10, confirmed: partition comparison unconditionally unwraps the
bounds options, so (given the per-partition both-or-neither bounds
invariant) partial_cmp completes without panicking exactly when both
partitions have set bounds, and it panics (none) whenever either
partition still has unset bounds, as does cmp built on top of it. -/
theorem claim10_unwrap_panics (comp : Cmp) (A B : PartitionImpl)
    (hA : A.lower_bound.isSome = A.upper_bound.isSome)
    (hB : B.lower_bound.isSome = B.upper_bound.isSome) :
    ((Partition.cmpPartial comp A B).isSome = true
      ↔ (A.lower_bound.isSome = true ∧ A.upper_bound.isSome = true
          ∧ B.lower_bound.isSome = true ∧ B.upper_bound.isSome = true))
    ∧ ((A.lower_bound = none ∨ B.lower_bound = none) →
        Partition.cmpPartial comp A B = none
        ∧ Partition.cmpTotal comp A B = none) := by
  cases hal : A.lower_bound <;> cases hau : A.upper_bound <;>
    cases hbl : B.lower_bound <;> cases hbu : B.upper_bound <;>
    rw [hal, hau] at hA <;> rw [hbl, hbu] at hB <;>
    simp_all [Partition.cmpPartial, Partition.cmpTotal]
  all_goals (split <;> (try split) <;> simp_all)

theorem claim10_witness :
    ((Partition.cmpPartial defaultComparator pEmpty pEmpty).isSome = true
      ↔ (pEmpty.lower_bound.isSome = true ∧ pEmpty.upper_bound.isSome = true
          ∧ pEmpty.lower_bound.isSome = true ∧ pEmpty.upper_bound.isSome = true))
    ∧ ((pEmpty.lower_bound = none ∨ pEmpty.lower_bound = none) →
        Partition.cmpPartial defaultComparator pEmpty pEmpty = none
        ∧ Partition.cmpTotal defaultComparator pEmpty pEmpty = none) :=
  claim10_unwrap_panics defaultComparator pEmpty pEmpty rfl rfl

/-- C4, code bug: with capacity 1 and two threads interleaving
allocate_quota (each one atomic load observing the count below capacity,
then a separate atomic increment), the state with two live CacheQuota
guards is reachable, violating the claimed hard capacity bound; dropping
a guard does decrement the occupied count by one. -/
theorem claim4_quota_bound_violated :
    QReach 1 { current_cache_count := 2,
               threads := [QThread.holding, QThread.holding] }
    ∧ liveGuards { current_cache_count := 2,
                   threads := [QThread.holding, QThread.holding] } = 2
    ∧ (∀ (cc : Nat) (s : QState) (i : Nat)
        (h : s.threads.get? i = some QThread.holding),
        QStep cc s { current_cache_count := s.current_cache_count - 1,
                     threads := s.threads.set i QThread.released }) := by
  refine ⟨?_, rfl, fun cc s i h => QStep.dropQuota s i h⟩
  have h0 : QReach 1
      { current_cache_count := 0,
        threads := [QThread.checking, QThread.checking] } := QReach.init 2
  have h1 := QReach.step _ _ h0
    (QStep.observeBelow _ 0 rfl (by decide))
  have h2 := QReach.step _ _ h1
    (QStep.observeBelow _ 1 rfl (by decide))
  have h3 := QReach.step _ _ h2
    (QStep.fetchAdd _ 0 rfl)
  have h4 := QReach.step _ _ h3
    (QStep.fetchAdd _ 1 rfl)
  exact h4


theorem encode_fixed32_length (n : Nat) : (encode_fixed32 n).length = 4 := rfl

theorem serializeItem_length (it : ScTableCatalogItem) :
    (serializeItem it).length = 16 := rfl

theorem catalogBytes_length (items : List ScTableCatalogItem) :
    (catalogBytes items).length = 16 * items.length := by
  induction items with
  | nil => rfl
  | cons it rest ih =>
    simp only [catalogBytes, List.map_cons, List.flatten_cons, List.length_append,
      List.length_cons] at ih ⊢
    rw [serializeItem_length, ih]
    ring

theorem catalogBytes_lt_256 (items : List ScTableCatalogItem) :
    ∀ b ∈ catalogBytes items, b < 256 := by
  intro b hb
  simp only [catalogBytes, List.mem_flatten, List.mem_map] at hb
  obtain ⟨l, ⟨it, _, hser⟩, hmem⟩ := hb
  subst hser
  simp only [serializeItem, encode_fixed32, List.mem_append, List.mem_cons,
    List.not_mem_nil, or_false] at hmem
  omega

theorem getD_split (l : List Nat) (j : Nat) (h : j < l.length) :
    l = l.take j ++ l.getD j 0 :: l.drop (j + 1) := by
  have h1 : l.getD j 0 = l[j] := by
    simp [List.getD_eq_getElem?_getD, List.getElem?_eq_getElem h]
  rw [h1]
  rw [List.getElem_cons_drop l j h]
  exact (List.take_append_drop j l).symm

theorem set_at_append (P Q : List Nat) (x y : Nat) :
    (P ++ x :: Q).set P.length y = P ++ y :: Q := by
  rw [List.set_append_right _ _ (Nat.le_refl _)]
  simp

theorem crcStep_lt (s b : Nat) (h : s < 4294967296) : crcStep s b < 4294967296 := by
  unfold crcStep
  have h1 : s >>> 8 < 4294967296 := by
    rw [shiftRight8_eq]
    omega
  have h2 : crcTableEntry ((s ^^^ b) &&& 255) < 4294967296 :=
    crcTableEntry_lt (and_255_lt _)
  have h3 := @Nat.xor_lt_two_pow (s >>> 8) (crcTableEntry ((s ^^^ b) &&& 255)) 32
    (by norm_num; exact h1) (by norm_num; exact h2)
  norm_num at h3
  exact h3

theorem checksum_ieee_lt (l : List Nat) : checksum_ieee l < 4294967296 := by
  unfold checksum_ieee
  have hfold : ∀ (m : List Nat) (s : Nat), s < 4294967296 →
      m.foldl crcStep s < 4294967296 := by
    intro m
    induction m with
    | nil => intro s hs; exact hs
    | cons c rest ih => intro s hs; exact ih _ (crcStep_lt s c hs)
  have h1 : l.foldl crcStep 0xFFFFFFFF < 4294967296 := hfold l _ (by norm_num)
  have h3 := @Nat.xor_lt_two_pow (l.foldl crcStep 0xFFFFFFFF) 0xFFFFFFFF 32
    (by norm_num; exact h1) (by norm_num)
  norm_num at h3
  exact h3

theorem flip_catalog_fails (items : List ScTableCatalogItem) (data : List Nat)
    (i y : Nat)
    (hClen : (catalogBytes items).length < 4294967296)
    (hDlen : data.length < 4294967296)
    (hy : y < 256)
    (h16 : TABLE_HEAD_SIZE ≤ i)
    (hiC : i < TABLE_HEAD_SIZE + (catalogBytes items).length)
    (hne : y ≠ (catalogBytes items ++ data).getD (i - TABLE_HEAD_SIZE) 0) :
    ScTableCache.from_raw ((mkTable items data).set i y)
      = Except.error "incorrect kv_catalog crc" := by
  have hTH : TABLE_HEAD_SIZE = 16 := rfl
  rw [hTH] at h16 hiC hne
  set C := catalogBytes items with hCdef
  set D := data with hDdef
  set j := i - 16 with hjdef
  have hj : j < C.length := by omega
  have hgetD : (C ++ D).getD j 0 = C.getD j 0 := by
    have h1 : (C ++ D)[j]? = C[j]? := List.getElem?_append_left hj
    simp [List.getD_eq_getElem?_getD, h1]
  rw [hgetD] at hne
  set x := C.getD j 0 with hxdef
  have hxe : x = C[j] := by
    simp [hxdef, List.getD_eq_getElem?_getD, List.getElem?_eq_getElem hj]
  have hx256 : x < 256 := by
    apply catalogBytes_lt_256 items
    have hmem : x ∈ C := by
      rw [hxe]
      exact List.getElem_mem _
    rw [hCdef] at hmem
    exact hmem
  set C1 := C.take j with hC1def
  set C2 := C.drop (j + 1) with hC2def
  have hCsplit : C = C1 ++ x :: C2 := getD_split C j hj
  have hC1len : C1.length = j := by
    simp [hC1def]
    omega
  set E1 := encode_fixed32 C.length with hE1
  set E2 := encode_fixed32 D.length with hE2
  set E3 := encode_fixed32 (checksum_ieee C) with hE3
  set E4 := encode_fixed32 (checksum_ieee D) with hE4
  have hmk : mkTable items data
      = (E1 ++ (E2 ++ (E3 ++ (E4 ++ C1)))) ++ x :: (C2 ++ (D ++ TABLE_MAGIC)) := by
    show E1 ++ E2 ++ E3 ++ E4 ++ C ++ D ++ TABLE_MAGIC = _
    conv_lhs => rw [hCsplit]
    simp [List.append_assoc]
  have hPlen : (E1 ++ (E2 ++ (E3 ++ (E4 ++ C1)))).length = i := by
    simp [hE1, hE2, hE3, hE4, encode_fixed32, hC1len]
    omega
  have hsetbuf : (mkTable items data).set i y
      = (E1 ++ (E2 ++ (E3 ++ (E4 ++ C1)))) ++ y :: (C2 ++ (D ++ TABLE_MAGIC)) := by
    rw [hmk, ← hPlen, set_at_append]
  have hC'len : (C1 ++ y :: C2).length = C.length := by
    conv_rhs => rw [hCsplit]
    simp
  have hcomp : (mkTable items data).set i y
      = encode_fixed32 ((C1 ++ y :: C2).length) ++ encode_fixed32 D.length
        ++ encode_fixed32 (checksum_ieee C) ++ encode_fixed32 (checksum_ieee D)
        ++ (C1 ++ y :: C2) ++ D ++ TABLE_MAGIC := by
    rw [hsetbuf, hC'len, ← hE1, ← hE2, ← hE3, ← hE4]
    simp [List.append_assoc]
  rw [hcomp]
  rw [from_raw_components (C1 ++ y :: C2) D TABLE_MAGIC
    (checksum_ieee C) (checksum_ieee D)
    (by rw [hC'len]; exact hClen) hDlen (checksum_ieee_lt C) (checksum_ieee_lt D) rfl]
  have hcrc : checksum_ieee (C1 ++ y :: C2) ≠ checksum_ieee C := by
    conv_rhs => rw [hCsplit]
    exact (checksum_single_byte_flip C1 C2 x y hx256 hy
      (fun hxy => hne (hxy ▸ rfl))).symm
  have hmod : (C1 ++ y :: C2).length % TABLE_INDEX_SIZE = 0 := by
    rw [hC'len, hCdef, catalogBytes_length]
    show 16 * items.length % 16 = 0
    exact Nat.mul_mod_right 16 items.length
  rw [if_neg (fun h => h rfl), if_neg (fun h => h hmod), if_pos hcrc]

theorem flip_data_fails (items : List ScTableCatalogItem) (data : List Nat)
    (i y : Nat)
    (hdata : ∀ b ∈ data, b < 256)
    (hClen : (catalogBytes items).length < 4294967296)
    (hDlen : data.length < 4294967296)
    (hy : y < 256)
    (h16 : TABLE_HEAD_SIZE + (catalogBytes items).length ≤ i)
    (hiD : i < TABLE_HEAD_SIZE + (catalogBytes items).length + data.length)
    (hne : y ≠ (catalogBytes items ++ data).getD (i - TABLE_HEAD_SIZE) 0) :
    ScTableCache.from_raw ((mkTable items data).set i y)
      = Except.error "incorrect data crc" := by
  have hTH : TABLE_HEAD_SIZE = 16 := rfl
  rw [hTH] at h16 hiD hne
  set C := catalogBytes items with hCdef
  set D := data with hDdef
  set j := i - 16 - C.length with hjdef
  have hj : j < D.length := by omega
  have hgetD : (C ++ D).getD (i - 16) 0 = D.getD j 0 := by
    have h1 : (C ++ D)[i - 16]? = D[i - 16 - C.length]? :=
      List.getElem?_append_right (by omega)
    simp [List.getD_eq_getElem?_getD, h1, hjdef]
  rw [hgetD] at hne
  set x := D.getD j 0 with hxdef
  have hxe : x = D[j] := by
    simp [hxdef, List.getD_eq_getElem?_getD, List.getElem?_eq_getElem hj]
  have hx256 : x < 256 := by
    apply hdata
    have hmem : x ∈ D := by
      rw [hxe]
      exact List.getElem_mem _
    rw [hDdef] at hmem
    exact hmem
  set D1 := D.take j with hD1def
  set D2 := D.drop (j + 1) with hD2def
  have hDsplit : D = D1 ++ x :: D2 := getD_split D j hj
  have hD1len : D1.length = j := by
    simp [hD1def]
    omega
  set E1 := encode_fixed32 C.length with hE1
  set E2 := encode_fixed32 D.length with hE2
  set E3 := encode_fixed32 (checksum_ieee C) with hE3
  set E4 := encode_fixed32 (checksum_ieee D) with hE4
  have hmk : mkTable items data
      = (E1 ++ (E2 ++ (E3 ++ (E4 ++ (C ++ D1))))) ++ x :: (D2 ++ TABLE_MAGIC) := by
    show E1 ++ E2 ++ E3 ++ E4 ++ C ++ D ++ TABLE_MAGIC = _
    conv_lhs => rw [hDsplit]
    simp [List.append_assoc]
  have hPlen : (E1 ++ (E2 ++ (E3 ++ (E4 ++ (C ++ D1))))).length = i := by
    simp [hE1, hE2, hE3, hE4, encode_fixed32, hD1len]
    omega
  have hsetbuf : (mkTable items data).set i y
      = (E1 ++ (E2 ++ (E3 ++ (E4 ++ (C ++ D1))))) ++ y :: (D2 ++ TABLE_MAGIC) := by
    rw [hmk, ← hPlen, set_at_append]
  have hD'len : (D1 ++ y :: D2).length = D.length := by
    conv_rhs => rw [hDsplit]
    simp
  have hcomp : (mkTable items data).set i y
      = encode_fixed32 C.length ++ encode_fixed32 ((D1 ++ y :: D2).length)
        ++ encode_fixed32 (checksum_ieee C) ++ encode_fixed32 (checksum_ieee D)
        ++ C ++ (D1 ++ y :: D2) ++ TABLE_MAGIC := by
    rw [hsetbuf, hD'len, ← hE1, ← hE2, ← hE3, ← hE4]
    simp [List.append_assoc]
  rw [hcomp]
  rw [from_raw_components C (D1 ++ y :: D2) TABLE_MAGIC
    (checksum_ieee C) (checksum_ieee D)
    hClen (by rw [hD'len]; exact hDlen) (checksum_ieee_lt C) (checksum_ieee_lt D) rfl]
  have hcrc : checksum_ieee (D1 ++ y :: D2) ≠ checksum_ieee D := by
    conv_rhs => rw [hDsplit]
    exact (checksum_single_byte_flip D1 D2 x y hx256 hy
      (fun hxy => hne (hxy ▸ rfl))).symm
  have hmod : C.length % TABLE_INDEX_SIZE = 0 := by
    rw [hCdef, catalogBytes_length]
    show 16 * items.length % 16 = 0
    exact Nat.mul_mod_right 16 items.length
  rw [if_neg (fun h => h rfl), if_neg (fun h => h hmod),
    if_neg (fun h => h rfl), if_pos hcrc]

/-- C3, code bug: the buffer built from one catalog item whose value range
ends exactly at the end of the 2-byte data region is validly constructed
(both ranges lie fully inside the data region), yet from_raw rejects it,
because the source checks the item end offsets with a greater-or-equal
comparison against the data length instead of strictly-greater. -/
theorem claim3_item_boundary_code_bug :
    itemInsideData ⟨0, 1, 1, 1⟩ 2
    ∧ ScTableCache.from_raw (mkTable [⟨0, 1, 1, 1⟩] [97, 98])
      = Except.error "incorrect key/value catalog data" :=
  ⟨⟨by decide, by decide⟩, by rfl⟩

/-- C9, confirmed: flipping any single byte of the catalog or data region
of a validly constructed table buffer changes that region CRC-32 and
parsing fails with the corresponding corruption error; any buffer shorter
than the minimum table size fails; replacing the trailing magic fails. -/
theorem claim9_corruption_detection :
    (∀ (items : List ScTableCatalogItem) (data : List Nat) (i y : Nat),
      (∀ b ∈ data, b < 256) →
      (catalogBytes items).length < 4294967296 → data.length < 4294967296 →
      y < 256 → TABLE_HEAD_SIZE ≤ i →
      i < TABLE_HEAD_SIZE + (catalogBytes items).length + data.length →
      y ≠ (catalogBytes items ++ data).getD (i - TABLE_HEAD_SIZE) 0 →
      ScTableCache.from_raw ((mkTable items data).set i y)
        = (if i < TABLE_HEAD_SIZE + (catalogBytes items).length
           then Except.error "incorrect kv_catalog crc"
           else Except.error "incorrect data crc"))
    ∧ (∀ raw : List Nat, raw.length < TABLE_MIN_SIZE →
        ScTableCache.from_raw raw = Except.error "too small to be a table file")
    ∧ (∀ (items : List ScTableCatalogItem) (data : List Nat) (M : List Nat),
        (catalogBytes items).length < 4294967296 → data.length < 4294967296 →
        M.length = TABLE_MAGIC_SIZE → M ≠ TABLE_MAGIC →
        ScTableCache.from_raw (encode_fixed32 (catalogBytes items).length
            ++ encode_fixed32 data.length
            ++ encode_fixed32 (checksum_ieee (catalogBytes items))
            ++ encode_fixed32 (checksum_ieee data)
            ++ catalogBytes items ++ data ++ M)
          = Except.error "incorrect table magic") := by
  refine ⟨?_, ?_, ?_⟩
  · intro items data i y hdata hClen hDlen hy h16 hiCD hne
    by_cases hc : i < TABLE_HEAD_SIZE + (catalogBytes items).length
    · rw [if_pos hc]
      exact flip_catalog_fails items data i y hClen hDlen hy h16 hc hne
    · rw [if_neg hc]
      exact flip_data_fails items data i y hdata hClen hDlen hy (by omega) hiCD hne
  · intro raw hlen
    unfold ScTableCache.from_raw
    rw [if_pos hlen]
  · intro items data M hClen hDlen hM hne
    rw [from_raw_components (catalogBytes items) data M
      (checksum_ieee (catalogBytes items)) (checksum_ieee data)
      hClen hDlen (checksum_ieee_lt _) (checksum_ieee_lt _) hM]
    rw [if_pos hne]

theorem claim9_witness :
    ScTableCache.from_raw ((mkTable [⟨0, 1, 1, 0⟩] [97, 98]).set 16 1)
      = Except.error "incorrect kv_catalog crc"
    ∧ ScTableCache.from_raw [] = Except.error "too small to be a table file"
    ∧ ScTableCache.from_raw (encode_fixed32 (catalogBytes [⟨0, 1, 1, 0⟩]).length
        ++ encode_fixed32 ([97, 98] : List Nat).length
        ++ encode_fixed32 (checksum_ieee (catalogBytes [⟨0, 1, 1, 0⟩]))
        ++ encode_fixed32 (checksum_ieee [97, 98])
        ++ catalogBytes [⟨0, 1, 1, 0⟩] ++ [97, 98] ++ [0, 0, 0, 98])
      = Except.error "incorrect table magic" := by
  refine ⟨?_, ?_, ?_⟩
  · have h := claim9_corruption_detection.1 [⟨0, 1, 1, 0⟩] [97, 98] 16 1
      (by decide) (by decide) (by decide) (by decide) (by decide) (by decide) (by decide)
    simpa using h
  · exact claim9_corruption_detection.2.1 [] (by decide)
  · exact claim9_corruption_detection.2.2 [⟨0, 1, 1, 0⟩] [97, 98] [0, 0, 0, 98]
      (by decide) (by decide) (by decide) (by decide)
end ScottDB
